import Mathlib

deriving instance DecidableEq for Except

/-!
Shallow embedding of the sfollow tool (src/sfollow/sfollow.py with helpers
in src/sfollow/terminal.py; an earlier iteration lives in src/sfollow.py).
The external collaborators (squeue/scontrol subprocesses, the file system)
are passed in explicitly: a subprocess is a function from the argument list
to an exit code and stdout lines, the file system a partial map from path
to byte content, and file identity (device+inode, as used by
os.path.samefile) a partial map from path to an id pair.
-/

namespace Sfollow

/-- The set STATES_FINISHED of src/sfollow/sfollow.py (lines 17-20). -/
def STATES_FINISHED : List String :=
  ["BOOT_FAIL", "CANCELLED", "COMPLETED", "DEADLINE", "FAILED",
   "NODE_FAIL", "OUT_OF_MEMORY", "PREEMPTED", "SPECIAL_EXIT", "TIMEOUT"]

/-- The set STATES_NOT_STARTED of src/sfollow/sfollow.py (line 21). -/
def STATES_NOT_STARTED : List String := ["PENDING", "CONFIGURING"]

def isFinished (s : String) : Bool := decide (s ∈ STATES_FINISHED)

def isNotStarted (s : String) : Bool := decide (s ∈ STATES_NOT_STARTED)

/-! ## job_states (src/sfollow/sfollow.py lines 23-28)

`job_states` builds a squeue command line, runs it (`check=True`: a non-zero
exit raises CalledProcessError), and parses every stdout line with
`l.strip().partition(' ')[::2]` into a (job id, state) pair collected in a
dict. The subprocess is modelled as `exec : List String -> Nat × List String`
(argument list to exit code and stdout lines); the returned pair records the
list of external invocations made, so that claims about whether the external
command is invoked are statable. -/

/-- Errors raised by the embedded code: `calledProcessError` is what
subprocess.run(check=True) raises on a non-zero exit; `osError` what
os.path.samefile raises when a path cannot be stat-ed; `ioError` what
open() raises when a path cannot be opened. -/
inductive RunErr where
  | calledProcessError
  | osError
  | ioError
  deriving DecidableEq, Repr

/-- Python str.strip() whitespace (ASCII part). -/
def isPySpace (c : Char) : Bool :=
  c = ' ' ∨ c = '\t' ∨ c = '\n' ∨ c = '\r' ∨ c = '\x0b' ∨ c = '\x0c'

/-- Python str.strip(): drop leading and trailing whitespace. -/
def stripList (l : List Char) : List Char :=
  ((l.dropWhile isPySpace).reverse.dropWhile isPySpace).reverse

/-- Split a character list at the first space: `some (before, after)`,
or `none` when there is no space. -/
def breakSpace : List Char → Option (List Char × List Char)
  | [] => none
  | c :: rest =>
      if c = ' ' then some ([], rest)
      else (breakSpace rest).map (fun p => (c :: p.1, p.2))

/-- Python `l.strip().partition(' ')[::2]`: the stripped line up to the
first space and the remainder after it; a line without a space comes back
whole, paired with the empty string. -/
def partitionFirstSpace (s : String) : String × String :=
  let t := stripList s.toList
  match breakSpace t with
  | none => (String.mk t, "")
  | some (a, b) => (String.mk a, String.mk b)

/-- Association-list lookup with string keys (Python dict read). -/
def alookup {α : Type} (l : List (String × α)) (k : String) : Option α :=
  match l with
  | [] => none
  | p :: rest => if p.1 = k then some p.2 else alookup rest k

/-- Python dict insertion: an existing key keeps its position and takes the
new value, a new key is appended. -/
def dictInsert (d : List (String × String)) (k v : String) :
    List (String × String) :=
  match alookup d k with
  | some _ => d.map (fun p => if p.1 = k then (k, v) else p)
  | none => d ++ [(k, v)]

/-- Python `dict(pairs)`, inserting from an accumulator. -/
def dictOfPairsFrom (d : List (String × String)) :
    List (String × String) → List (String × String)
  | [] => d
  | p :: rest => dictOfPairsFrom (dictInsert d p.1 p.2) rest

/-- Python `dict(pairs)`. -/
def dictOfPairs (ps : List (String × String)) : List (String × String) :=
  dictOfPairsFrom [] ps

/-- The squeue command line built by job_states (lines 24-26). -/
def job_states_cmd (jobIds : List String) (cluster : Option String) :
    List String :=
  ["squeue", "--noheader", "--format=%i %T", "--jobs",
   String.intercalate "," jobIds, "--states=all"] ++
  (match cluster with | some c => ["--clusters", c] | none => [])

/-- The dict comprehension of job_states line 28: one entry per stdout
line, split at the first space after stripping. -/
def parse_job_states (stdoutLines : List String) : List (String × String) :=
  dictOfPairs (stdoutLines.map (fun l => partitionFirstSpace l))

/-- job_states (lines 23-28): builds the command, always invokes it
(the invocation is recorded in the first component), raises
CalledProcessError exactly on a non-zero exit, and otherwise parses
stdout. -/
def job_states (exec : List String → Nat × List String)
    (jobIds : List String) (cluster : Option String) :
    List (List String) × Except RunErr (List (String × String)) :=
  let cmd := job_states_cmd jobIds cluster
  let r := exec cmd
  ([cmd],
   if r.1 = 0 then .ok (parse_job_states r.2) else .error .calledProcessError)

/-- The exception handler of main (src/sfollow/sfollow.py line 161):
`except (KeyboardInterrupt, UsageError)`. Everything else — in particular
CalledProcessError from a failed status query and OSError/IOError from the
file system — propagates out uncaught. -/
inductive TopException where
  | keyboardInterrupt
  | usageError
  | runErr (e : RunErr)
  deriving DecidableEq, Repr

def main_catches : TopException → Bool
  | .keyboardInterrupt => true
  | .usageError => true
  | .runErr _ => false

/-! ## Job info and the log path resolver (lines 97-123)

get_job_info runs `scontrol show job` and parses its KEY=value output into
a dict; the watcher only reads the keys JobName, StdOut and StdErr from it,
so the parsed dict is modelled by those three optional fields.
get_std_streams (lines 108-123) collects the StdOut path then the StdErr
path, and when both are present asks os.path.samefile whether they are one
underlying file (same st_dev and st_ino); samefile stats both paths and
raises OSError when either stat fails. File identity is modelled as
`fileId : String -> Option (Nat × Nat)`, `none` meaning the stat fails. -/

structure JobInfo where
  jobName : Option String
  stdOut : Option String
  stdErr : Option String
  deriving DecidableEq, Repr

/-- The `paths` list of get_std_streams before deduplication (lines
113-117): StdOut if present, then StdErr if present. -/
def streamsPaths (info : JobInfo) : List String :=
  (match info.stdOut with | some p => [p] | none => []) ++
  (match info.stdErr with | some p => [p] | none => [])

/-- os.path.samefile: compare device+inode of both stat results; OSError
when either path cannot be stat-ed. -/
def samefile (fileId : String → Option (Nat × Nat)) (p q : String) :
    Except RunErr Bool :=
  match fileId p, fileId q with
  | some a, some b => .ok (a = b)
  | _, _ => .error .osError

/-- get_std_streams (lines 108-123): dedup the two paths through samefile
when both are present (keeping the StdOut entry), otherwise return the
list as collected. -/
def get_std_streams (fileId : String → Option (Nat × Nat)) (info : JobInfo) :
    Except RunErr (List String) :=
  match streamsPaths info with
  | [p0, p1] =>
      (match samefile fileId p0 p1 with
       | .error e => .error e
       | .ok same => if same then .ok [p0] else .ok [p0, p1])
  | ps => .ok ps

/-! ## The file tailer and the watcher state (sfollow, lines 31-94)

A tailer is an open binary file handle with a read position.  The watcher
state mirrors the two local dicts of sfollow: `states` (job id to last
known state, insertion ordered) and `open_files` (defaultdict of job id to
its open handles; a key is present exactly when at least one handle was
appended, and dict.pop removes it whole).  File contents are byte lists;
`fs path = none` means open() raises. -/

structure Tailer where
  path : String
  pos : Nat
  deriving DecidableEq, Repr

structure WatchState where
  states : List (String × String)
  openFiles : List (String × List Tailer)
  deriving DecidableEq, Repr

/-- The observable actions of one run: external squeue invocations (the
job-id list queried), file opens for tailing, bytes read from a tailed
file and handed to print, the "Job ... started" and "Job ... finished"
notices of terminal.msg, and the waiting spinner line. -/
inductive Event where
  | queryCmd (jobIds : List String)
  | openTail (jid : String) (path : String) (newlyStarted : Bool)
  | output (jid : String) (bytes : List Nat)
  | startedNotice (jid : String) (name : String)
  | finishedNotice (jid : String) (state : String)
  | spinner
  deriving DecidableEq, Repr

/-- The environment of one run: the file system (path to content, `none`
when open fails), file identity for samefile, the parsed scontrol info per
job, and the squeue state oracle: `resp k j` is the state squeue reports
for job `j` in the `k`-th successful status query (squeue answers with one
line per queried job, per its documented output contract; failing queries
are covered separately by `job_states` above). -/
structure Env where
  fs : String → Option (List Nat)
  fileId : String → Option (Nat × Nat)
  info : String → JobInfo
  resp : Nat → String → String

/-- Python dict assignment `d[k] = v`: an existing key keeps its position,
a new key is appended. -/
def aupdate (l : List (String × String)) (k v : String) :
    List (String × String) :=
  match l with
  | [] => [(k, v)]
  | p :: rest => if p.1 = k then (k, v) :: rest else p :: aupdate rest k v

/-- Python dict.pop(k): drop the entry for `k`. -/
def aremove {α : Type} (l : List (String × α)) (k : String) :
    List (String × α) :=
  l.filter (fun p => ¬ p.1 = k)

/-- Append tailers to open_files[jid] (defaultdict append, lines 54 and
84): with no tailers the defaultdict is never touched, so no key
appears. -/
def appendFiles (st : WatchState) (jid : String) (ts : List Tailer) :
    WatchState :=
  match ts with
  | [] => st
  | _ =>
    { st with openFiles :=
        match alookup st.openFiles jid with
        | some _ => st.openFiles.map
            (fun p => if p.1 = jid then (p.1, p.2 ++ ts) else p)
        | none => st.openFiles ++ [(jid, ts)] }

/-- The seek of lines 51-53 (already-running jobs: back-seek by 512 when
the file is larger) against the plain open of line 84 (newly started
jobs: read from the start). -/
def firstReadOffset (newlyStarted : Bool) (size : Nat) : Nat :=
  if newlyStarted = false ∧ 512 < size then size - 512 else 0

/-- open(path, 'rb') followed by the conditional back-seek: IOError when
the path cannot be opened. -/
def openOne (env : Env) (newlyStarted : Bool) (path : String) :
    Except RunErr Tailer :=
  match env.fs path with
  | none => .error .ioError
  | some content =>
      .ok ⟨path, firstReadOffset newlyStarted content.length⟩

/-- Open one tailer per path, in order; the first failing open aborts. -/
def openAll (env : Env) (newlyStarted : Bool) :
    List String → Except RunErr (List Tailer)
  | [] => .ok []
  | p :: rest =>
      match openOne env newlyStarted p with
      | .error e => .error e
      | .ok t =>
          match openAll env newlyStarted rest with
          | .error e => .error e
          | .ok ts => .ok (t :: ts)

/-- Resolve a job's log paths and open a tailer for each (lines 49-54 with
newlyStarted = false, lines 80-84 with newlyStarted = true). Errors of
get_std_streams and open propagate. -/
def openTailers (env : Env) (jid : String) (newlyStarted : Bool) :
    Except RunErr (List Tailer × List Event) :=
  match get_std_streams env.fileId (env.info jid) with
  | .error e => .error e
  | .ok paths =>
      match openAll env newlyStarted paths with
      | .error e => .error e
      | .ok ts => .ok (ts, paths.map (fun p => Event.openTail jid p newlyStarted))

/-- The bytes fh.read() returns: everything from the current position to
the end of the file. -/
def readRest (fs : String → Option (List Nat)) (t : Tailer) : List Nat :=
  ((fs t.path).getD []).drop t.pos

/-- The per-handle prints of the `finished` function: one print per handle
with a non-empty remainder, in handle order. -/
def finishedOutputs (fs : String → Option (List Nat)) (jid : String)
    (tailers : List Tailer) : List Event :=
  tailers.filterMap (fun t =>
    let b := readRest fs t
    if b.isEmpty then none else some (Event.output jid b))

/-- The local function `finished` of sfollow (lines 35-44): pop the job's
open handles, read each to the end (printing the remainder when non-empty,
decoded with replacement and with trailing newlines normalised by
rstrip+print), close them, then emit the finish notice. -/
def finishedStep (fs : String → Option (List Nat)) (st : WatchState)
    (jid finalState : String) : WatchState × List Event :=
  let tailers := (alookup st.openFiles jid).getD []
  ({ st with openFiles := aremove st.openFiles jid },
   finishedOutputs fs jid tailers ++ [Event.finishedNotice jid finalState])

/-- One handle of the drain loop (lines 60-63): `for line in f: print...`
reads from the position to the end of the file. -/
def drainTailer (fs : String → Option (List Nat)) (jid : String)
    (t : Tailer) : Tailer × List Event :=
  let b := readRest fs t
  (⟨t.path, max t.pos ((fs t.path).getD []).length⟩,
   if b.isEmpty then [] else [Event.output jid b])

/-- Drain every handle of one job, in order. -/
def drainFiles (fs : String → Option (List Nat)) (jid : String) :
    List Tailer → List Tailer × List Event
  | [] => ([], [])
  | t :: rest =>
      let a := drainTailer fs jid t
      let r := drainFiles fs jid rest
      (a.1 :: r.1, a.2 ++ r.2)

/-- Drain every entry of open_files, in order. -/
def drainEntries (fs : String → Option (List Nat)) :
    List (String × List Tailer) → List (String × List Tailer) × List Event
  | [] => ([], [])
  | jf :: rest =>
      let a := drainFiles fs jf.1 jf.2
      let r := drainEntries fs rest
      ((jf.1, a.1) :: r.1, a.2 ++ r.2)

/-- The drain phase of each loop iteration (lines 60-63): every open
handle is read to the end of its file. -/
def drainAll (fs : String → Option (List Nat)) (st : WatchState) :
    WatchState × List Event :=
  let r := drainEntries fs st.openFiles
  ({ st with openFiles := r.1 }, r.2)

/-- The body of the `for job_id, new_state in new_states.items()` loop
(lines 76-89): the started branch fires when the new state is out of
STATES_NOT_STARTED while the recorded one is still in it (notice, then
open the log files from offset 0); the finished branch fires whenever the
new state is in STATES_FINISHED; finally the recorded state is
overwritten. -/
def processJob (env : Env) (st : WatchState) (jid newState : String) :
    Except RunErr (WatchState × List Event) :=
  let prev := (alookup st.states jid).getD ""
  let step1 : Except RunErr (WatchState × List Event) :=
    if (!(isNotStarted newState)) && isNotStarted prev then
      match openTailers env jid true with
      | .error e => .error e
      | .ok te => .ok (appendFiles st jid te.1,
          Event.startedNotice jid ((env.info jid).jobName.getD "") :: te.2)
    else .ok (st, [])
  match step1 with
  | .error e => .error e
  | .ok r1 =>
      let r2 :=
        if isFinished newState then finishedStep env.fs r1.1 jid newState
        else (r1.1, [])
      .ok ({ r2.1 with states := aupdate r2.1.states jid newState },
           r1.2 ++ r2.2)

/-- Lines 76-89 over the whole new_states dict, in order. -/
def processPoll (env : Env) (st : WatchState) :
    List (String × String) → Except RunErr (WatchState × List Event)
  | [] => .ok (st, [])
  | p :: rest =>
      match processJob env st p.1 p.2 with
      | .error e => .error e
      | .ok r =>
          match processPoll env r.1 rest with
          | .error e => .error e
          | .ok r2 => .ok (r2.1, r.2 ++ r2.2)

/-- The initialisation of sfollow (lines 31-57) for one job: a job whose
initial state is out of STATES_NOT_STARTED gets its log files opened with
the back-seek, and one already finished is drained and closed at once with
its finish notice. -/
def initJob (env : Env) (st : WatchState) (jid state : String) :
    Except RunErr (WatchState × List Event) :=
  if isNotStarted state then .ok (st, [])
  else
    match openTailers env jid false with
    | .error e => .error e
    | .ok te =>
        let st1 := appendFiles st jid te.1
        if isFinished state then
          let r := finishedStep env.fs st1 jid state
          .ok (r.1, te.2 ++ r.2)
        else .ok (st1, te.2)

/-- The per-job initialisation sweep over the items of the initial states
dict, in order. -/
def initJobs (env : Env) (st : WatchState) :
    List (String × String) → Except RunErr (WatchState × List Event)
  | [] => .ok (st, [])
  | p :: rest =>
      match initJob env st p.1 p.2 with
      | .error e => .error e
      | .ok r =>
          match initJobs env r.1 rest with
          | .error e => .error e
          | .ok r2 => .ok (r2.1, r.2 ++ r2.2)

/-- Lines 31-57: the initial state query (oracle query 0) followed by the
per-job initialisation sweep. -/
def sfollowInit (env : Env) (jobIds : List String) :
    Except RunErr (WatchState × List Event) :=
  let states := dictOfPairs (jobIds.map (fun j => (j, env.resp 0 j)))
  match initJobs env ⟨states, []⟩ states with
  | .error e => .error e
  | .ok r => .ok (r.1, Event.queryCmd jobIds :: r.2)

/-- One iteration of the main loop (lines 59-94), tick counter `i`: drain
every open handle; on every 4th tick show the spinner when no file is
open, query the states of the jobs not yet recorded finished (oracle query
i+1), and process the answers; report whether the loop then exits (line
91-92: all recorded states finished). -/
def sfollowTick (env : Env) (i : Nat)
    (st : WatchState) : Except RunErr (WatchState × List Event × Bool) :=
  let d := drainAll env.fs st
  let pre :=
    if i % 4 = 0 then
      let spin : List Event :=
        if d.1.openFiles.isEmpty then [Event.spinner] else []
      let queried := (d.1.states.filter
        (fun p => !(isFinished p.2))).map Prod.fst
      (d.2 ++ spin ++ [Event.queryCmd queried],
       queried.map (fun j => (j, env.resp (i + 1) j)))
    else (d.2, ([] : List (String × String)))
  match processPoll env d.1 pre.2 with
  | .error e => .error e
  | .ok r => .ok (r.1, pre.1 ++ r.2,
      r.1.states.all (fun p => isFinished p.2))

/-- The loop of lines 59-94 run for at most `fuel` iterations starting at
tick `i`; the Bool tells whether the loop exited (the line-92 break) within
the given fuel. -/
def sfollowLoop (env : Env) :
    Nat → Nat → WatchState → Except RunErr (WatchState × List Event × Bool)
  | 0, _, st => .ok (st, [], false)
  | fuel + 1, i, st =>
      match sfollowTick env i st with
      | .error e => .error e
      | .ok r =>
          if r.2.2 then .ok (r.1, r.2.1, true)
          else
            match sfollowLoop env fuel (i + 1) r.1 with
            | .error e => .error e
            | .ok r2 => .ok (r2.1, r.2.1 ++ r2.2.1, r2.2.2)

/-- sfollow (lines 31-94): initialisation followed by the loop, with at
most `fuel` iterations. -/
def sfollowRun (env : Env) (jobIds : List String) (fuel : Nat) :
    Except RunErr (WatchState × List Event × Bool) :=
  match sfollowInit env jobIds with
  | .error e => .error e
  | .ok r =>
      match sfollowLoop env fuel 0 r.1 with
      | .error e => .error e
      | .ok r2 => .ok (r2.1, r.2 ++ r2.2.1, r2.2.2)

/-- The full event trace of a run (empty when the run raises). -/
def runTrace (env : Env) (jobIds : List String) (fuel : Nat) : List Event :=
  match sfollowRun env jobIds fuel with
  | .ok r => r.2.1
  | .error _ => []

/-! ## Observation helpers -/

/-- Is this event the "Job j finished (...)" notice? -/
def isFinNotice (j : String) : Event → Bool
  | .finishedNotice j2 _ => j2 = j
  | _ => false

/-- Is this event the "Job j (...) started" notice? -/
def isStartNotice (j : String) : Event → Bool
  | .startedNotice j2 _ => j2 = j
  | _ => false

/-- Is this event a started or finished notice for job j? -/
def isNoticeFor (j : String) (e : Event) : Bool :=
  isStartNotice j e || isFinNotice j e

/-- How many finish notices for job j a trace holds. -/
def finCount (j : String) (tr : List Event) : Nat :=
  (tr.filter (isFinNotice j)).length

/-! ## Concrete environments for counterexamples and witnesses -/

/-- One job whose single log file /a.log holds the bytes of "hi\n", with
squeue reporting COMPLETED from the very first query. -/
def envDone : Env where
  fs := fun p => if p = "/a.log" then some [104, 105, 10] else none
  fileId := fun p => if p = "/a.log" then some (1, 1) else none
  info := fun _ => ⟨some "build", some "/a.log", none⟩
  resp := fun _ _ => "COMPLETED"

/-- One job reported PENDING at the initial query and COMPLETED at every
later one: a direct not-started to finished transition. -/
def envSkip : Env where
  fs := fun p => if p = "/a.log" then some [104, 105, 10] else none
  fileId := fun p => if p = "/a.log" then some (1, 1) else none
  info := fun _ => ⟨some "build", some "/a.log", none⟩
  resp := fun k _ => if k = 0 then "PENDING" else "COMPLETED"

/-- Two running jobs; job 1's log path /bad.log cannot be opened while
job 2's /b.log is fine. -/
def envBadOpen : Env where
  fs := fun p => if p = "/b.log" then some [] else none
  fileId := fun p => if p = "/bad.log" ∨ p = "/b.log" then some (1, 1) else none
  info := fun j =>
    if j = "1" then ⟨some "x", some "/bad.log", none⟩
    else ⟨some "y", some "/b.log", none⟩
  resp := fun _ _ => "RUNNING"

/-- A job whose stdout and stderr are two different path strings naming
the same underlying file (same device and inode), e.g. via a symlink. -/
def fidSame : String → Option (Nat × Nat) := fun p =>
  if p = "/a.log" ∨ p = "/alias.log" then some (7, 42) else none

def infoSame : JobInfo := ⟨some "build", some "/a.log", some "/alias.log"⟩

/-- A job whose stdout and stderr are two distinct paths of which the
second cannot be stat-ed. -/
def fidMissing : String → Option (Nat × Nat) := fun p =>
  if p = "/a.log" then some (7, 42) else none

def infoMissing : JobInfo := ⟨some "build", some "/a.log", some "/gone.log"⟩

/-- One running job polled again with the same unchanged RUNNING state. -/
def envSame : Env where
  fs := fun p => if p = "/a.log" then some [104, 105, 10] else none
  fileId := fun p => if p = "/a.log" then some (1, 1) else none
  info := fun _ => ⟨some "build", some "/a.log", none⟩
  resp := fun _ _ => "RUNNING"

/-- A watcher state already tracking job 1 as RUNNING with one open
handle at the end of its log. -/
def stSame : WatchState := ⟨[("1", "RUNNING")], [("1", [⟨"/a.log", 3⟩])]⟩

/-- The concrete result of one tick that re-polls the unchanged RUNNING
state of stSame under envSame. -/
def rSame : WatchState × List Event × Bool :=
  (⟨[("1", "RUNNING")], [("1", [⟨"/a.log", 3⟩])]⟩,
   [Event.queryCmd ["1"]], false)

/-- The watcher state after the initial query reports job 1 PENDING. -/
def stSkip : WatchState := ⟨[("1", "PENDING")], []⟩

/-- The concrete result of processing the direct PENDING to COMPLETED
transition of job 1 under envSkip. -/
def rSkip : WatchState × List Event :=
  (⟨[("1", "COMPLETED")], []⟩,
   [Event.startedNotice "1" "build", Event.openTail "1" "/a.log" true,
    Event.output "1" [104, 105, 10], Event.finishedNotice "1" "COMPLETED"])

/-- The concrete result of the whole run under envDone with one tick of
fuel. -/
def rDone : WatchState × List Event × Bool :=
  (⟨[("1", "COMPLETED")], []⟩,
   [Event.queryCmd ["1"], Event.openTail "1" "/a.log" false,
    Event.output "1" [104, 105, 10], Event.finishedNotice "1" "COMPLETED",
    Event.spinner, Event.queryCmd []], true)

end Sfollow

namespace Sfollow

/-- Claim C1 counterexample: job_states does not short-circuit on the
empty job-id set. With an external command that exits 0 with no output,
the call for the empty set still performs exactly one external
invocation (whose --jobs argument is the empty string), even though the
returned mapping is empty. -/
theorem C1_cex :
    (job_states (fun _ => (0, [])) [] none).1 = [job_states_cmd [] none] ∧
    job_states_cmd [] none ≠ [] ∧
    (job_states (fun _ => (0, [])) [] none).2 = .ok [] := by
  refine ⟨rfl, by decide, by decide⟩

/-- Claim C1 (amended): the job state poller never short-circuits: for
every input, the empty job-id set included, job_states invokes the
external status command exactly once, with the comma-joined ids as the
--jobs argument, and when the command exits 0 it returns the mapping
parsed from the command's stdout. -/
theorem C1_amended (exec : List String → Nat × List String)
    (jobIds : List String) (cluster : Option String) :
    (job_states exec jobIds cluster).1 = [job_states_cmd jobIds cluster] ∧
    ((exec (job_states_cmd jobIds cluster)).1 = 0 →
      (job_states exec jobIds cluster).2 =
        .ok (parse_job_states (exec (job_states_cmd jobIds cluster)).2)) := by
  refine ⟨rfl, fun h => ?_⟩
  simp [job_states, h]

/-- Claim C5 counterexample: an unparseable stdout line does not raise.
With exit code 0 and the single line "FOO" (no space, so not of the form
id-space-STATE), job_states returns the mapping {"FOO": ""} instead of
raising. -/
theorem C5_cex :
    (job_states (fun _ => (0, ["FOO"])) ["1"] none).2 = .ok [("FOO", "")] := by
  decide

/-- Claim C5 (amended): job_states raises (CalledProcessError, from
check=True) exactly when the external status command exits non-zero; a
stdout line without a space is parsed into an entry mapping the whole
stripped line to the empty string rather than raising. The error is not
caught by main's handler (which catches only KeyboardInterrupt and
UsageError), so it is fatal: it terminates the tool. -/
theorem C5_amended (exec : List String → Nat × List String)
    (jobIds : List String) (cluster : Option String) :
    ((job_states exec jobIds cluster).2 = .error .calledProcessError ↔
      (exec (job_states_cmd jobIds cluster)).1 ≠ 0) ∧
    main_catches (.runErr .calledProcessError) = false := by
  constructor
  · by_cases h : (exec (job_states_cmd jobIds cluster)).1 = 0 <;>
      simp [job_states, h]
  · rfl

/-- Claim C6: for a tailer opened for an already-running job (not
"newly started"), the first read begins at size - 512 when the file
size exceeds 512 bytes and at offset 0 otherwise; for a tailer started
in "newly started" mode the first read begins at offset 0 regardless of
size. The last conjunct ties this to the open step: every successfully
opened tailer's position is exactly firstReadOffset applied to its
file's size. -/
theorem C6_offsets (newlyStarted : Bool) (size : Nat) :
    (newlyStarted = false → 512 < size →
      firstReadOffset newlyStarted size = size - 512) ∧
    (newlyStarted = false → size ≤ 512 →
      firstReadOffset newlyStarted size = 0) ∧
    (newlyStarted = true → firstReadOffset newlyStarted size = 0) ∧
    (∀ (env : Env) (path : String) (t : Tailer),
      openOne env newlyStarted path = .ok t →
      t.pos = firstReadOffset newlyStarted (((env.fs path).getD []).length)) := by
  refine ⟨?_, ?_, ?_, ?_⟩
  · intro h hs; simp [firstReadOffset, h, hs]
  · intro h hs; simp [firstReadOffset, h, Nat.not_lt.mpr hs]
  · intro h; simp [firstReadOffset, h]
  · intro env path t hok
    unfold openOne at hok
    cases hfs : env.fs path with
    | none => rw [hfs] at hok; exact absurd hok (by simp)
    | some content => rw [hfs] at hok; cases hok; simp [hfs]

/-- Claim C7: for every JobInfo whose present paths can be stat-ed, the
log path resolver returns an ordered list of 0, 1 or 2 paths — the
StdOut path if present, then the StdErr path if present — and when both
are present and refer to the same underlying file by device+inode
identity (equal fileId values, not string equality), it returns exactly
one path (the StdOut one). -/
theorem C7_resolver (fileId : String → Option (Nat × Nat)) (info : JobInfo)
    (hstat : ∀ p q, info.stdOut = some p → info.stdErr = some q →
      (fileId p).isSome = true ∧ (fileId q).isSome = true) :
    get_std_streams fileId info = .ok (
      match info.stdOut, info.stdErr with
      | none, none => []
      | some p, none => [p]
      | none, some q => [q]
      | some p, some q => if fileId p = fileId q then [p] else [p, q]) := by
  cases ho : info.stdOut with
  | none =>
    cases he : info.stdErr with
    | none => simp [get_std_streams, streamsPaths, ho, he]
    | some q => simp [get_std_streams, streamsPaths, ho, he]
  | some p =>
    cases he : info.stdErr with
    | none => simp [get_std_streams, streamsPaths, ho, he]
    | some q =>
      obtain ⟨hp, hq⟩ := hstat p q ho he
      obtain ⟨a, ha⟩ := Option.isSome_iff_exists.mp hp
      obtain ⟨b, hb⟩ := Option.isSome_iff_exists.mp hq
      by_cases hab : a = b
      · subst hab
        simp [get_std_streams, streamsPaths, ho, he, samefile, ha, hb]
      · simp [get_std_streams, streamsPaths, ho, he, samefile, ha, hb, hab]

/-- Claim C7 witness: two distinct path strings with the same
device+inode collapse to the single StdOut path. -/
theorem C7_witness :
    get_std_streams fidSame infoSame = .ok ["/a.log"] := by
  have h := C7_resolver fidSame infoSame (by
    intro p q hp hq
    simp only [infoSame] at hp hq
    injection hp with hp
    injection hq with hq
    subst hp; subst hq
    exact ⟨by decide, by decide⟩)
  simpa [infoSame, fidSame] using h

/-- Claim C10: if a JobInfo holds both StdOut and StdErr as two distinct
path strings and either path cannot be stat-ed, get_std_streams raises
OSError from the os.path.samefile identity check instead of returning
the two paths. -/
theorem C10_missing_raises (fileId : String → Option (Nat × Nat))
    (info : JobInfo) (p q : String)
    (hp : info.stdOut = some p) (hq : info.stdErr = some q)
    ( _hne : p ≠ q)
    (hmiss : fileId p = none ∨ fileId q = none) :
    get_std_streams fileId info = .error .osError := by
  have hsf : samefile fileId p q = .error .osError := by
    rcases hmiss with hm | hm
    · simp [samefile, hm]
    · cases h1 : fileId p <;> simp [samefile, hm, h1]
  simp [get_std_streams, streamsPaths, hp, hq, hsf]

/-- Claim C10 witness: with StdOut present and an StdErr path that does
not exist, the resolver raises OSError. -/
theorem C10_witness :
    get_std_streams fidMissing infoMissing = .error .osError :=
  C10_missing_raises fidMissing infoMissing "/a.log" "/gone.log" rfl rfl
    (by decide) (Or.inr (by decide))

theorem alookup_aremove_self {α : Type} (l : List (String × α)) (k : String) :
    alookup (aremove l k) k = none := by
  induction l with
  | nil => rfl
  | cons p rest ih =>
    by_cases h : p.1 = k
    · simpa [aremove, h] using ih
    · simpa [aremove, alookup, h] using ih

/-- Claim C9: the finished handler drains before it notifies. Its event
list is some outputs followed by exactly the finish notice; for every
open handle of the job, all bytes from the handle's read position to the
end of the file — in particular everything written before the finished
transition was observed and not yet printed — are read and handed to the
display in an output event that precedes the finish notice; and the
job's handles are closed afterwards, so cancelling a tailer never
discards unread trailing bytes. (The display call itself prints the
bytes decoded with replacement, with trailing newlines normalised by
rstrip plus print's own newline.) -/
theorem C9_drain (fs : String → Option (List Nat)) (st : WatchState)
    (jid finalState : String) :
    ∃ outs,
      (finishedStep fs st jid finalState).2 =
        outs ++ [Event.finishedNotice jid finalState] ∧
      (∀ t ∈ (alookup st.openFiles jid).getD [],
        (readRest fs t).isEmpty = false →
        Event.output jid (readRest fs t) ∈ outs) ∧
      alookup (finishedStep fs st jid finalState).1.openFiles jid = none := by
  refine ⟨finishedOutputs fs jid ((alookup st.openFiles jid).getD []), rfl, ?_, ?_⟩
  · intro t hmem hne
    exact List.mem_filterMap.mpr ⟨t, hmem, by simp [hne]⟩
  · simpa [finishedStep] using alookup_aremove_self st.openFiles jid

theorem openAll_error_of_mem (env : Env) (b : Bool) :
    ∀ (paths : List String) (p : String), p ∈ paths → env.fs p = none →
    openAll env b paths = .error .ioError := by
  intro paths
  induction paths with
  | nil => intro p h; cases h
  | cons a rest ih =>
    intro p hmem hnone
    rcases List.mem_cons.mp hmem with h | h
    · subst h; simp [openAll, openOne, hnone]
    · cases hfa : env.fs a with
      | none => simp [openAll, openOne, hfa]
      | some c => simp [openAll, openOne, hfa, ih p h hnone]

/-- Claim C4 (amended): an IoError opening any one of a job's log files
makes the whole tailer-opening step fail with that error; the error is
not caught anywhere — main's handler catches only KeyboardInterrupt and
UsageError — so it propagates and aborts tracking of all jobs. There is
no report-and-skip of the failing path. -/
theorem C4_amended (env : Env) (jid : String) (newlyStarted : Bool)
    (paths : List String) (p : String)
    (hpaths : get_std_streams env.fileId (env.info jid) = .ok paths)
    (hp : p ∈ paths) (hmiss : env.fs p = none) :
    openTailers env jid newlyStarted = .error .ioError ∧
    main_catches (.runErr .ioError) = false := by
  constructor
  · simp [openTailers, hpaths,
      openAll_error_of_mem env newlyStarted paths p hp hmiss]
  · rfl

/-- Claim C4 witness: under envBadOpen, opening job 1's log fails and
the opening step as a whole returns IOError, which main does not
catch. -/
theorem C4_witness :
    openTailers envBadOpen "1" false = .error .ioError ∧
    main_catches (.runErr .ioError) = false :=
  C4_amended envBadOpen "1" false ["/bad.log"] "/bad.log" (by decide)
    (by decide) (by decide)

/-- Claim C4 counterexample: with two running jobs of which job 1's log
path cannot be opened, the whole run aborts with the IO error: tracking
of job 2 does not continue, contradicting "fatal only for that job's
tailing". -/
theorem C4_cex : sfollowRun envBadOpen ["1", "2"] 1 = .error .ioError := by
  decide

/-- Claim C2 counterexample: with a single job already COMPLETED at the
first query, the watcher does open that job's log file (an openTail
event appears in the trace), contradicting "starts no File Tailers". -/
theorem C2_cex :
    Event.openTail "1" "/a.log" false ∈ runTrace envDone ["1"] 1 := by decide

/-- Claim C3 counterexample: for a job that goes PENDING at the initial
query and COMPLETED at the next poll, the run trace contains a started
notice, a file open, and the file's full output — contradicting "skips
tailing entirely: no File Tailer is started and no job output is
shown". -/
theorem C3_cex :
    Event.startedNotice "1" "build" ∈ runTrace envSkip ["1"] 1 ∧
    Event.openTail "1" "/a.log" true ∈ runTrace envSkip ["1"] 1 ∧
    Event.output "1" [104, 105, 10] ∈ runTrace envSkip ["1"] 1 := by
  refine ⟨by decide, by decide, by decide⟩

theorem alookup_aupdate_self (l : List (String × String)) (k v : String) :
    alookup (aupdate l k v) k = some v := by
  induction l with
  | nil => simp [aupdate, alookup]
  | cons p rest ih =>
    by_cases h : p.1 = k
    · simp [aupdate, h, alookup]
    · simp [aupdate, h, alookup, ih]

theorem alookup_aupdate_ne (l : List (String × String)) (k v j : String)
    (h : j ≠ k) :
    alookup (aupdate l k v) j = alookup l j := by
  have hkj : ¬ k = j := fun hh => h hh.symm
  induction l with
  | nil => simp [aupdate, alookup, hkj]
  | cons p rest ih =>
    by_cases hp : p.1 = k
    · simp [aupdate, alookup, hp, hkj]
    · by_cases hj : p.1 = j
      · simp [aupdate, alookup, hp, hj, hkj, h]
      · simp [aupdate, alookup, hp, hj, ih]

theorem appendFiles_states (st : WatchState) (jid : String) (ts : List Tailer) :
    (appendFiles st jid ts).states = st.states := by
  cases ts <;> rfl

theorem openOne_ok (env : Env) (b : Bool) (p : String) (t : Tailer)
    (h : openOne env b p = .ok t) :
    t = ⟨p, firstReadOffset b (((env.fs p).getD []).length)⟩ := by
  unfold openOne at h
  cases hfs : env.fs p with
  | none => rw [hfs] at h; cases h
  | some c => rw [hfs] at h; cases h; simp [hfs]

theorem openAll_ok_shape (env : Env) (b : Bool) :
    ∀ (paths : List String) (ts : List Tailer),
    openAll env b paths = .ok ts →
    ts = paths.map (fun p =>
      (⟨p, firstReadOffset b (((env.fs p).getD []).length)⟩ : Tailer)) := by
  intro paths
  induction paths with
  | nil => intro ts h; cases h; rfl
  | cons a rest ih =>
    intro ts h
    unfold openAll at h
    cases h1 : openOne env b a with
    | error e => rw [h1] at h; cases h
    | ok t =>
      rw [h1] at h
      cases h2 : openAll env b rest with
      | error e => rw [h2] at h; cases h
      | ok ts2 =>
        rw [h2] at h; cases h
        simp [openOne_ok env b a t h1, ih ts2 h2]

theorem openTailers_ok_shape (env : Env) (jid : String) (b : Bool)
    (te : List Tailer × List Event)
    (h : openTailers env jid b = .ok te) :
    ∃ paths, get_std_streams env.fileId (env.info jid) = .ok paths ∧
      te.1 = paths.map (fun p =>
        (⟨p, firstReadOffset b (((env.fs p).getD []).length)⟩ : Tailer)) ∧
      te.2 = paths.map (fun p => Event.openTail jid p b) := by
  unfold openTailers at h
  split at h
  · cases h
  · rename_i paths hg
    split at h
    · cases h
    · rename_i ts ho
      cases h
      exact ⟨paths, hg, openAll_ok_shape env b paths ts ho, rfl⟩

theorem finishedOutputs_mem (fs : String → Option (List Nat)) (j : String)
    (ts : List Tailer) (e : Event) (he : e ∈ finishedOutputs fs j ts) :
    ∃ bts, e = Event.output j bts := by
  obtain ⟨t, _, ht⟩ := List.mem_filterMap.mp he
  by_cases hb : (readRest fs t).isEmpty
  · simp [hb] at ht
  · simp [hb] at ht
    exact ⟨readRest fs t, ht.symm⟩

theorem finishedStep_states (fs : String → Option (List Nat))
    (st : WatchState) (jid s : String) :
    (finishedStep fs st jid s).1.states = st.states := rfl

theorem finishedStep_events (fs : String → Option (List Nat))
    (st : WatchState) (jid s : String) (e : Event)
    (he : e ∈ (finishedStep fs st jid s).2) :
    (∃ bs, e = Event.output jid bs) ∨ e = Event.finishedNotice jid s := by
  rcases List.mem_append.mp he with h1 | h2
  · exact Or.inl (finishedOutputs_mem fs jid _ e h1)
  · simp at h2; exact Or.inr h2

theorem processJob_ok_cases (env : Env) (st : WatchState) (k s2 : String)
    (r : WatchState × List Event) (h : processJob env st k s2 = .ok r) :
    r.1.states = aupdate st.states k s2 ∧
    ∀ e ∈ r.2, (∃ nm, e = Event.startedNotice k nm) ∨
      (∃ p b, e = Event.openTail k p b) ∨
      (∃ bs, e = Event.output k bs) ∨ (∃ s3, e = Event.finishedNotice k s3) := by
  simp only [processJob] at h
  cases hc : (!(isNotStarted s2)) && isNotStarted ((alookup st.states k).getD "") with
  | false =>
    rw [hc] at h
    simp only [Bool.false_eq_true, if_false] at h
    cases hf : isFinished s2 with
    | false =>
      rw [hf] at h
      simp only [Bool.false_eq_true, if_false] at h
      cases h
      exact ⟨rfl, by intro e he; cases he⟩
    | true =>
      rw [hf] at h
      simp only [if_true] at h
      cases h
      refine ⟨rfl, ?_⟩
      intro e he
      simp only [List.nil_append] at he
      rcases finishedStep_events env.fs st k s2 e he with ⟨bs, rfl⟩ | rfl
      · exact Or.inr (Or.inr (Or.inl ⟨bs, rfl⟩))
      · exact Or.inr (Or.inr (Or.inr ⟨s2, rfl⟩))
  | true =>
    rw [hc] at h
    simp only [if_true] at h
    cases hot : openTailers env k true with
    | error e0 => rw [hot] at h; cases h
    | ok te =>
      rw [hot] at h
      cases hf : isFinished s2 with
      | false =>
        rw [hf] at h
        simp only [Bool.false_eq_true, if_false] at h
        cases h
        refine ⟨by simp [appendFiles_states], ?_⟩
        intro e he
        rcases List.mem_append.mp he with h1 | h2
        · rcases List.mem_cons.mp h1 with rfl | h1b
          · exact Or.inl ⟨_, rfl⟩
          · obtain ⟨paths, _, _, hev⟩ := openTailers_ok_shape env k true te hot
            rw [hev] at h1b
            obtain ⟨p, _, rfl⟩ := List.mem_map.mp h1b
            exact Or.inr (Or.inl ⟨p, true, rfl⟩)
        · cases h2
      | true =>
        rw [hf] at h
        simp only [if_true] at h
        cases h
        refine ⟨by simp [finishedStep_states, appendFiles_states], ?_⟩
        intro e he
        rcases List.mem_append.mp he with h1 | h2
        · rcases List.mem_cons.mp h1 with rfl | h1b
          · exact Or.inl ⟨_, rfl⟩
          · obtain ⟨paths, _, _, hev⟩ := openTailers_ok_shape env k true te hot
            rw [hev] at h1b
            obtain ⟨p, _, rfl⟩ := List.mem_map.mp h1b
            exact Or.inr (Or.inl ⟨p, true, rfl⟩)
        · rcases finishedStep_events env.fs _ k s2 e h2 with ⟨bs, rfl⟩ | rfl
          · exact Or.inr (Or.inr (Or.inl ⟨bs, rfl⟩))
          · exact Or.inr (Or.inr (Or.inr ⟨s2, rfl⟩))

theorem processJob_same_state (env : Env) (st : WatchState) (j s : String)
    (hrec : alookup st.states j = some s) (hfin : isFinished s = false) :
    processJob env st j s = .ok ({ st with states := aupdate st.states j s }, []) := by
  have hcond : ((!(isNotStarted s)) && isNotStarted s) = false := by
    cases hn : isNotStarted s <;> simp [hn]
  simp [processJob, hrec, hcond, hfin]

theorem isNoticeFor_of_about (j k : String) (e : Event) (hjk : j ≠ k)
    (habout : (∃ nm, e = Event.startedNotice k nm) ∨
      (∃ p b, e = Event.openTail k p b) ∨
      (∃ bs, e = Event.output k bs) ∨ (∃ s3, e = Event.finishedNotice k s3)) :
    isNoticeFor j e = false := by
  have hkj : ¬ k = j := fun hh => hjk hh.symm
  rcases habout with ⟨nm, rfl⟩ | ⟨p, b, rfl⟩ | ⟨bs, rfl⟩ | ⟨s3, rfl⟩ <;>
    simp [isNoticeFor, isStartNotice, isFinNotice, hkj]

theorem processPoll_no_notice (env : Env) (j s : String) :
    ∀ (ns : List (String × String)) (st : WatchState)
      (r : WatchState × List Event),
    processPoll env st ns = .ok r →
    alookup st.states j = some s →
    (∀ p ∈ ns, p.1 = j → p.2 = s ∧ isFinished s = false) →
    ∀ e ∈ r.2, isNoticeFor j e = false := by
  intro ns
  induction ns with
  | nil =>
    intro st r h _ _ e he
    cases h; cases he
  | cons p rest ih =>
    intro st r h hrec hkeys
    unfold processPoll at h
    split at h
    · cases h
    rename_i r1 hpj
    split at h
    · cases h
    rename_i r2 hpp
    cases h
    ·
        have hrec1 : alookup r1.1.states j = some s := by
          by_cases hj : p.1 = j
          · obtain ⟨hps, _⟩ := hkeys p (List.mem_cons_self p rest) hj
            rw [(processJob_ok_cases env st p.1 p.2 r1 hpj).1, hj, hps,
              alookup_aupdate_self]
          · rw [(processJob_ok_cases env st p.1 p.2 r1 hpj).1,
              alookup_aupdate_ne st.states p.1 p.2 j (fun hh => hj hh.symm)]
            exact hrec
        intro e he
        rcases List.mem_append.mp he with h1 | h2
        · by_cases hj : p.1 = j
          · obtain ⟨hps, hfin⟩ := hkeys p (List.mem_cons_self p rest) hj
            rw [hj, hps, processJob_same_state env st j s hrec hfin] at hpj
            cases hpj
            cases h1
          · exact isNoticeFor_of_about j p.1 e (fun hh => hj hh.symm)
              ((processJob_ok_cases env st p.1 p.2 r1 hpj).2 e h1)
        · exact ih r1.1 r2 hpp hrec1
            (fun q hq hqj => hkeys q (List.mem_cons_of_mem p hq) hqj) e h2

theorem drainFiles_events (fs : String → Option (List Nat)) (k : String) :
    ∀ (ts : List Tailer), ∀ e ∈ (drainFiles fs k ts).2,
    ∃ bs, e = Event.output k bs := by
  intro ts
  induction ts with
  | nil => intro e he; cases he
  | cons t rest ih =>
    intro e he
    rcases List.mem_append.mp he with h1 | h2
    · unfold drainTailer at h1
      by_cases hb : (readRest fs t).isEmpty
      · simp [hb] at h1
      · simp [hb] at h1
        exact ⟨readRest fs t, h1⟩
    · exact ih e h2

theorem drainEntries_events (fs : String → Option (List Nat)) :
    ∀ (l : List (String × List Tailer)), ∀ e ∈ (drainEntries fs l).2,
    ∃ k bs, e = Event.output k bs := by
  intro l
  induction l with
  | nil => intro e he; cases he
  | cons jf rest ih =>
    intro e he
    rcases List.mem_append.mp he with h1 | h2
    · obtain ⟨bs, rfl⟩ := drainFiles_events fs jf.1 jf.2 e h1
      exact ⟨jf.1, bs, rfl⟩
    · exact ih e h2

theorem alookup_of_mem_nodup {α : Type} (q : String × α) :
    ∀ (l : List (String × α)), (l.map Prod.fst).Nodup → q ∈ l →
    alookup l q.1 = some q.2 := by
  intro l
  induction l with
  | nil => intro _ hq; cases hq
  | cons p rest ih =>
    intro hnd hq
    rcases List.mem_cons.mp hq with rfl | hq2
    · simp [alookup]
    · have hnd2 : (p.1 :: rest.map Prod.fst).Nodup := by
        simpa only [List.map_cons] using hnd
      have hsplit := List.nodup_cons.mp hnd2
      have hne : ¬ p.1 = q.1 := by
        intro hh
        exact hsplit.1 (hh ▸ List.mem_map.mpr ⟨q, hq2, rfl⟩)
      simp [alookup, hne, ih hsplit.2 hq2]

/-- Claim C8: polling the same unchanged state a second time produces no
duplicate notices. If the recorded state of job j is s and the next
status query reports s again, then the tick emits no started and no
finished notice for j: the started branch requires the recorded state to
still be "not started", and a job recorded as finished is excluded from
the query altogether, so each notice fires exactly once, at its state
transition. -/
theorem C8_no_duplicate_notices (env : Env) (i : Nat) (st : WatchState)
    (j s : String) (r : WatchState × List Event × Bool)
    (hnodup : (st.states.map Prod.fst).Nodup)
    (hrec : alookup st.states j = some s)
    (hsame : env.resp (i + 1) j = s)
    (hrun : sfollowTick env i st = .ok r) :
    ∀ e ∈ r.2.1, isNoticeFor j e = false := by
  have hds : (drainAll env.fs st).1.states = st.states := rfl
  have hdrain : ∀ e ∈ (drainAll env.fs st).2, isNoticeFor j e = false := by
    intro e he
    obtain ⟨k, bs, rfl⟩ := drainEntries_events env.fs st.openFiles e he
    rfl
  by_cases hi : i % 4 = 0
  · simp only [sfollowTick, hi, if_true] at hrun
    split at hrun
    · cases hrun
    rename_i rp hpp
    cases hrun
    intro e he
    rcases List.mem_append.mp he with h1 | h2
    · rcases List.mem_append.mp h1 with h1a | h1b
      · rcases List.mem_append.mp h1a with h1c | h1d
        · exact hdrain e h1c
        · have : e = Event.spinner := by
            by_cases hsp : (drainAll env.fs st).1.openFiles.isEmpty <;>
              simp [hsp] at h1d
            · exact h1d
          subst this; rfl
      · simp at h1b; subst h1b; rfl
    · apply processPoll_no_notice env j s _ _ rp hpp (by rw [hds]; exact hrec)
        ?_ e h2
      intro p hp hpj
      obtain ⟨j2, hj2mem, rfl⟩ := List.mem_map.mp hp
      simp only at hpj
      subst hpj
      refine ⟨hsame, ?_⟩
      obtain ⟨q, hqmem, hqkey⟩ := List.mem_map.mp hj2mem
      have hflt := List.mem_filter.mp hqmem
      have hq2 : q.2 = s := by
        have hl := alookup_of_mem_nodup q st.states hnodup hflt.1
        rw [hqkey, hrec] at hl
        injection hl with hl
        exact hl.symm
      rw [← hq2]
      simpa using hflt.2
  · simp only [sfollowTick, hi, if_false, processPoll] at hrun
    cases hrun
    intro e he
    simp only [List.append_nil] at he
    exact hdrain e he

/-- Claim C8 witness: re-polling the unchanged RUNNING state of job 1
produces a tick trace with no notices for job 1 at all. -/
theorem C8_witness : rSame.2.1.filter (isNoticeFor "1") = [] := by
  have h := C8_no_duplicate_notices envSame 0 stSame "1" "RUNNING" rSame
    (by decide) (by decide) rfl (by decide)
  exact List.filter_eq_nil_iff.mpr (fun e he => by simp [h e he])

theorem finished_not_notStarted (s : String) (h : isFinished s = true) :
    isNotStarted s = false := by
  have hs : s ∈ STATES_FINISHED := of_decide_eq_true h
  apply decide_eq_false
  intro hmem
  have hcase : s = "PENDING" ∨ s = "CONFIGURING" := by
    simpa [STATES_NOT_STARTED] using hmem
  rcases hcase with rfl | rfl <;> exact absurd hs (by decide)

theorem alookup_append_right {α : Type} (l1 l2 : List (String × α)) (k : String)
    (h : alookup l1 k = none) : alookup (l1 ++ l2) k = alookup l2 k := by
  induction l1 with
  | nil => rfl
  | cons p rest ih =>
    by_cases hp : p.1 = k
    · simp [alookup, hp] at h
    · have h2 : alookup rest k = none := by simpa [alookup, hp] using h
      simpa [alookup, hp] using ih h2

theorem alookup_appendFiles_self (st : WatchState) (jid : String)
    (ts : List Tailer) (h : alookup st.openFiles jid = none) :
    (alookup (appendFiles st jid ts).openFiles jid).getD [] = ts := by
  cases ts with
  | nil => simp [appendFiles, h]
  | cons t rest =>
    simp only [appendFiles, h]
    rw [alookup_append_right st.openFiles _ jid h]
    simp [alookup]

theorem firstReadOffset_true (n : Nat) : firstReadOffset true n = 0 := by
  simp [firstReadOffset]

/-- Claim C3 (amended): a job that transitions directly from a
not-started state to a finished state is not skipped. The watcher treats
it as started: it emits the started notice, opens each resolved log file
at offset 0 ("newly started" mode), and the finish handling immediately
reads and displays each file's entire contents before emitting the
finish notice. -/
theorem C3_amended (env : Env) (st : WatchState) (jid newState : String)
    (paths : List String) (r : WatchState × List Event)
    (hprev : isNotStarted ((alookup st.states jid).getD "") = true)
    (hfin : isFinished newState = true)
    (hnof : alookup st.openFiles jid = none)
    (hpaths : get_std_streams env.fileId (env.info jid) = .ok paths)
    (hrun : processJob env st jid newState = .ok r) :
    r.2 = Event.startedNotice jid ((env.info jid).jobName.getD "") ::
      (paths.map (fun p => Event.openTail jid p true) ++
       (finishedOutputs env.fs jid
          (paths.map (fun p => (⟨p, 0⟩ : Tailer))) ++
        [Event.finishedNotice jid newState])) := by
  have hns : isNotStarted newState = false := finished_not_notStarted newState hfin
  have hcond : ((!(isNotStarted newState)) &&
      isNotStarted ((alookup st.states jid).getD "")) = true := by
    rw [hns, hprev]; rfl
  simp only [processJob, hcond, if_true] at hrun
  cases hot : openTailers env jid true with
  | error e0 => rw [hot] at hrun; cases hrun
  | ok te =>
    rw [hot] at hrun
    simp only [hfin, if_true] at hrun
    obtain ⟨paths2, hg2, hts, hev⟩ := openTailers_ok_shape env jid true te hot
    have hpe : paths2 = paths := by
      rw [hpaths] at hg2; injection hg2 with hg2; exact hg2.symm
    subst hpe
    have hpop : (alookup (appendFiles st jid te.1).openFiles jid).getD [] = te.1 :=
      alookup_appendFiles_self st jid te.1 hnof
    cases hrun
    simp only [finishedStep]
    rw [hpop]
    simp only [hev, hts, firstReadOffset_true, List.cons_append,
      List.append_assoc]

/-- Claim C3 witness: the concrete PENDING-to-COMPLETED transition of
job 1 produces exactly the started notice, the open, the full file
contents, and the finish notice. -/
theorem C3_witness :
    rSkip.2 = Event.startedNotice "1" ((envSkip.info "1").jobName.getD "") ::
      (["/a.log"].map (fun p => Event.openTail "1" p true) ++
       (finishedOutputs envSkip.fs "1"
          (["/a.log"].map (fun p => (⟨p, 0⟩ : Tailer))) ++
        [Event.finishedNotice "1" "COMPLETED"])) :=
  C3_amended envSkip stSkip "1" "COMPLETED" ["/a.log"] rSkip (by decide)
    (by decide) (by decide) (by decide) (by decide)

theorem alookup_none_iff {α : Type} (l : List (String × α)) (k : String) :
    alookup l k = none ↔ k ∉ l.map Prod.fst := by
  induction l with
  | nil => simp [alookup]
  | cons p rest ih =>
    by_cases hp : p.1 = k
    · simp [alookup, hp]
    · have hkp : ¬ k = p.1 := fun h => hp h.symm
      simp [alookup, hp, ih, hkp]

theorem mem_dictInsert (d : List (String × String)) (k v : String)
    (p : String × String) (h : p ∈ dictInsert d k v) : p ∈ d ∨ p = (k, v) := by
  unfold dictInsert at h
  cases hl : alookup d k with
  | some w =>
    rw [hl] at h
    obtain ⟨q, hq, hqe⟩ := List.mem_map.mp h
    by_cases hqk : q.1 = k
    · right; rw [← hqe]; simp [hqk]
    · left; rw [← hqe]; simp [hqk]; exact hq
  | none =>
    rw [hl] at h
    rcases List.mem_append.mp h with h1 | h2
    · exact Or.inl h1
    · right; simpa using h2

theorem keys_map_update (d : List (String × String)) (k v : String) :
    (d.map (fun p => if p.1 = k then (k, v) else p)).map Prod.fst =
      d.map Prod.fst := by
  rw [List.map_map]
  apply List.map_congr_left
  intro q _
  by_cases hqk : q.1 = k <;> simp [hqk, Function.comp]

theorem keys_dictInsert (d : List (String × String)) (k v k' : String) :
    k' ∈ (dictInsert d k v).map Prod.fst ↔
      k' ∈ d.map Prod.fst ∨ k' = k := by
  unfold dictInsert
  cases hl : alookup d k with
  | some w =>
    have hk : k ∈ d.map Prod.fst := by
      by_contra hk
      rw [(alookup_none_iff d k).mpr hk] at hl; cases hl
    rw [keys_map_update]
    constructor
    · exact fun h => Or.inl h
    · rintro (h | rfl)
      · exact h
      · exact hk
  | none =>
    rw [List.map_append]
    simp [List.mem_append]

theorem keys_nodup_dictInsert (d : List (String × String)) (k v : String)
    (h : (d.map Prod.fst).Nodup) :
    ((dictInsert d k v).map Prod.fst).Nodup := by
  unfold dictInsert
  cases hl : alookup d k with
  | some w => rw [keys_map_update]; exact h
  | none =>
    rw [List.map_append]
    refine List.Nodup.append h (by simp) ?_
    intro a ha hb
    simp at hb
    subst hb
    exact ((alookup_none_iff d a).mp hl) ha

theorem dictOfPairsFrom_mem :
    ∀ (ps d : List (String × String)) (p : String × String),
    p ∈ dictOfPairsFrom d ps → p ∈ d ∨ p ∈ ps := by
  intro ps
  induction ps with
  | nil => intro d p h; exact Or.inl h
  | cons q rest ih =>
    intro d p h
    rcases ih (dictInsert d q.1 q.2) p h with h1 | h2
    · rcases mem_dictInsert d q.1 q.2 p h1 with h3 | h4
      · exact Or.inl h3
      · right
        rw [h4]
        simp
    · exact Or.inr (List.mem_cons_of_mem q h2)

theorem dictOfPairsFrom_keys :
    ∀ (ps d : List (String × String)) (k : String),
    k ∈ (dictOfPairsFrom d ps).map Prod.fst ↔
      k ∈ d.map Prod.fst ∨ k ∈ ps.map Prod.fst := by
  intro ps
  induction ps with
  | nil => intro d k; simp [dictOfPairsFrom]
  | cons q rest ih =>
    intro d k
    rw [dictOfPairsFrom, ih, keys_dictInsert]
    simp [List.mem_cons]
    tauto

theorem dictOfPairsFrom_keys_nodup :
    ∀ (ps d : List (String × String)), (d.map Prod.fst).Nodup →
    ((dictOfPairsFrom d ps).map Prod.fst).Nodup := by
  intro ps
  induction ps with
  | nil => intro d h; exact h
  | cons q rest ih =>
    intro d h
    exact ih _ (keys_nodup_dictInsert d q.1 q.2 h)

theorem finCount_append (j : String) (a b : List Event) :
    finCount j (a ++ b) = finCount j a + finCount j b := by
  simp [finCount, List.filter_append]

theorem finCount_eq_zero (j : String) (tr : List Event)
    (h : ∀ e ∈ tr, isFinNotice j e = false) : finCount j tr = 0 := by
  have : tr.filter (isFinNotice j) = [] :=
    List.filter_eq_nil_iff.mpr (fun e he => by simp [h e he])
  simp [finCount, this]

theorem initJob_all_done (env : Env) (st : WatchState) (jid s : String)
    (r : WatchState × List Event)
    (hof : st.openFiles = []) (hfin : isFinished s = true)
    (h : initJob env st jid s = .ok r) :
    r.1.openFiles = [] ∧ r.1.states = st.states ∧
    (∀ k, finCount k r.2 = if jid = k then 1 else 0) := by
  have hns := finished_not_notStarted s hfin
  simp only [initJob, hns, Bool.false_eq_true, if_false] at h
  split at h
  · cases h
  rename_i te hot
  simp only [hfin, if_true] at h
  cases h
  obtain ⟨paths, _, hts, hev⟩ := openTailers_ok_shape env jid false te hot
  refine ⟨?_, by rw [finishedStep_states, appendFiles_states], ?_⟩
  · cases hte : te.1 with
    | nil => simp [finishedStep, appendFiles, hte, hof, aremove]
    | cons t rest =>
      simp [finishedStep, appendFiles, hte, hof, aremove, alookup]
  · intro k
    rw [finCount_append]
    have hz1 : finCount k te.2 = 0 := by
      apply finCount_eq_zero
      intro e he
      rw [hev] at he
      obtain ⟨p, _, rfl⟩ := List.mem_map.mp he
      rfl
    have hz2 : finCount k (finishedOutputs env.fs jid
        ((alookup (appendFiles st jid te.1).openFiles jid).getD [])) = 0 := by
      apply finCount_eq_zero
      intro e he
      obtain ⟨bs, rfl⟩ := finishedOutputs_mem env.fs jid _ e he
      rfl
    rw [show (finishedStep env.fs (appendFiles st jid te.1) jid s).2 =
      finishedOutputs env.fs jid
        ((alookup (appendFiles st jid te.1).openFiles jid).getD []) ++
      [Event.finishedNotice jid s] from rfl]
    rw [finCount_append, hz1, hz2]
    by_cases hk : jid = k
    · simp [finCount, isFinNotice, hk]
    · simp [finCount, isFinNotice, hk]

theorem initJobs_all_done (env : Env) :
    ∀ (entries : List (String × String)) (st : WatchState)
      (r : WatchState × List Event),
    st.openFiles = [] →
    (∀ p ∈ entries, isFinished p.2 = true) →
    initJobs env st entries = .ok r →
    r.1.openFiles = [] ∧ r.1.states = st.states ∧
    ∀ k, finCount k r.2 = (entries.map Prod.fst).count k := by
  intro entries
  induction entries with
  | nil =>
    intro st r hof _ h
    cases h
    exact ⟨hof, rfl, by simp [finCount]⟩
  | cons p rest ih =>
    intro st r hof hfin h
    unfold initJobs at h
    split at h
    · cases h
    rename_i r1 h1
    split at h
    · cases h
    rename_i r2 h2
    cases h
    obtain ⟨ho1, hs1, hc1⟩ :=
      initJob_all_done env st p.1 p.2 r1 hof (hfin p (List.mem_cons_self p rest)) h1
    obtain ⟨ho2, hs2, hc2⟩ :=
      ih r1.1 r2 ho1 (fun q hq => hfin q (List.mem_cons_of_mem p hq)) h2
    refine ⟨ho2, by rw [hs2, hs1], ?_⟩
    intro k
    rw [finCount_append, hc1 k, hc2 k, List.map_cons, List.count_cons]
    by_cases hk : p.1 = k <;> simp [hk, Nat.add_comm]

theorem tick_all_finished (env : Env) (i : Nat) (st : WatchState)
    (hof : st.openFiles = [])
    (hfin : ∀ p ∈ st.states, isFinished p.2 = true)
    (hi : i % 4 = 0) :
    sfollowTick env i st = .ok (st, [Event.spinner, Event.queryCmd []], true) := by
  obtain ⟨sts, ofs⟩ := st
  simp only at hof
  subst hof
  have hfilter : sts.filter (fun p => !(isFinished p.2)) = [] :=
    List.filter_eq_nil_iff.mpr (fun p hp => by simp [hfin p hp])
  have hall : sts.all (fun p => isFinished p.2) = true :=
    List.all_eq_true.mpr (fun p hp => hfin p hp)
  simp [sfollowTick, drainAll, drainEntries, hi, hfilter, processPoll, hall]

/-- Claim C2 (amended): for every job set in which every job is already
in a finished state at the first state query, the watcher opens and
immediately drains and closes each job's log files during
initialisation (so no tailer remains open), emits exactly one finish
notice per job, and the loop exits on its very first iteration (after
showing the waiting spinner and issuing one further query for the empty
set). -/
theorem C2_amended (env : Env) (jobIds : List String)
    (r : WatchState × List Event × Bool)
    (hfin : ∀ j ∈ jobIds, isFinished (env.resp 0 j) = true)
    (hrun : sfollowRun env jobIds 1 = .ok r) :
    r.2.2 = true ∧ r.1.openFiles = [] ∧
    ∀ j ∈ jobIds, finCount j r.2.1 = 1 := by
  unfold sfollowRun at hrun
  split at hrun
  · cases hrun
  rename_i ri hinit
  simp only [sfollowInit] at hinit
  split at hinit
  · cases hinit
  rename_i r0 hjobs
  cases hinit
  have hallfin : ∀ p ∈ dictOfPairs (jobIds.map (fun j => (j, env.resp 0 j))),
      isFinished p.2 = true := by
    intro p hp
    rcases dictOfPairsFrom_mem _ [] p hp with h0 | h1
    · cases h0
    · obtain ⟨j, hj, hje⟩ := List.mem_map.mp h1
      rw [← hje]
      exact hfin j hj
  obtain ⟨ho0, hs0, hc0⟩ := initJobs_all_done env
    (dictOfPairs (jobIds.map (fun j => (j, env.resp 0 j))))
    ⟨dictOfPairs (jobIds.map (fun j => (j, env.resp 0 j))), []⟩ r0 rfl hallfin hjobs
  have hfin0 : ∀ p ∈ r0.1.states, isFinished p.2 = true := by
    rw [hs0]; exact hallfin
  split at hrun
  · cases hrun
  rename_i r2 hloop
  cases hrun
  unfold sfollowLoop at hloop
  rw [tick_all_finished env 0 r0.1 ho0 hfin0 rfl] at hloop
  simp only [if_true] at hloop
  cases hloop
  refine ⟨rfl, ho0, ?_⟩
  intro j hj
  have hkeys0 : (jobIds.map (fun j => (j, env.resp 0 j))).map Prod.fst = jobIds := by
    rw [List.map_map]
    have hcomp : (Prod.fst ∘ fun j => (j, env.resp 0 j)) = id := rfl
    rw [hcomp, List.map_id]
  have hjk : j ∈ (dictOfPairs (jobIds.map (fun j => (j, env.resp 0 j)))).map Prod.fst := by
    show j ∈ (dictOfPairsFrom [] (jobIds.map (fun j => (j, env.resp 0 j)))).map Prod.fst
    refine (dictOfPairsFrom_keys _ [] j).mpr (Or.inr ?_)
    rw [hkeys0]
    exact hj
  have hnd : ((dictOfPairs (jobIds.map (fun j => (j, env.resp 0 j)))).map Prod.fst).Nodup :=
    dictOfPairsFrom_keys_nodup _ [] (by simp)
  have hone := List.count_eq_one_of_mem hnd hjk
  have hdrop : finCount j (Event.queryCmd jobIds ::
      (r0.2 ++ [Event.spinner, Event.queryCmd []])) = finCount j r0.2 := by
    simp [finCount, List.filter_append, isFinNotice]
  simpa [hdrop, hc0 j] using hone

/-- Claim C2 witness: the concrete all-finished run exits on the first
loop iteration with no open files and one finish notice for job 1. -/
theorem C2_witness :
    rDone.2.2 = true ∧ rDone.1.openFiles = [] ∧ finCount "1" rDone.2.1 = 1 := by
  have h := C2_amended envDone ["1"] rDone (by decide) (by decide)
  exact ⟨h.1, h.2.1, h.2.2 "1" (by decide)⟩

end Sfollow
